import Mathlib

/-!
Shallow embedding of the hotkey matching and process-lifecycle engine of
thotkeys (src/thotkeys.c: `command_hotkeys`, plus the registry built from the
`--hotkey` declarations in `main`).

Representation notes, kept close to the C source:

* `struct hotkey_map` is two 256-byte arrays (`char keys[256]`, `char
  buttons[256]`) whose entries only ever hold 0 or 1.  The engine addresses a
  map as one flat 512-byte buffer through
  `offsetof(struct hotkey_map, keys) + detail` (= `detail`) and
  `offsetof(struct hotkey_map, buttons) + detail` (= `256 + detail`).
  Such a 0/1 buffer is represented here by the finite set of offsets holding 1
  (`Finset (Fin 512)`); `memset(..., 0, ...)` is the empty set and `memcmp`
  equality is set equality.

* `fork()` is an external primitive; it is modelled by an oracle
  `forks : Nat → Int` together with a running call counter `nf`: the n-th
  `fork()` call of the run returns `forks n` (a positive pid on success, `-1`
  on failure; the child branch of `fork` runs `execl`+`exit` and never returns
  to the engine, so only the parent's view is modelled).

* The observable side effects of one loop iteration (the `warn(...)` about a
  still-running program, the `fork`/`execl` spawn, and `kill(pid, SIGTERM)`)
  are recorded as a list of `Action`s.

* `waitpid(-1, ..., WNOHANG)` is an external primitive; the list of child
  pids it reports as exited at the top of a loop iteration is supplied as
  input (`exited : List Int`) to the reap pass.

* X11 symbol resolution (`XStringToKeysym`, `XKeysymToKeycode`) and libc
  `strtol` are external collaborators, modelled as oracle functions in
  `Resolvers`.  `XStringToKeysym` returns `none` for `NoSymbol`;
  `XKeysymToKeycode` returns a `KeyCode` (an unsigned char, hence `Fin 256`),
  with 0 meaning failure.

* The `detail` field of an `XIRawEvent` is a key code or button number from
  the input source; per the event-source contract it is a non-negative
  integer, modelled as `Nat`.  The engine's validity check is `detail > 255`.
-/

namespace Thotkeys

/-- Offset into the flat 512-byte view of `struct hotkey_map`:
offsets 0..255 are `keys[detail]`, offsets 256..511 are `buttons[detail]`. -/
abbrev MapOffset := Fin 512

/-- Offset of `keys[d]`: `offsetof(struct hotkey_map, keys) + d = d`. -/
def keyOffset (d : Fin 256) : MapOffset := ⟨d.val, by omega⟩

/-- Offset of `buttons[d]`: `offsetof(struct hotkey_map, buttons) + d = 256 + d`. -/
def buttonOffset (d : Fin 256) : MapOffset := ⟨256 + d.val, by omega⟩

/-- A `struct hotkey_map` (two 0/1 byte arrays), as the set of offsets holding 1. -/
abbrev HotkeyMap := Finset MapOffset

/-- The runtime part of `struct hotkey_config`: the resolved `checkmap`
(required set), the live `keymap` (held set), the `activated` flag, the child
`pid` (−1 meaning none) and the `on_press` command string.  The raw
`keystrs`/`buttonstrs` CLI fields live in `HotkeyDecl`; they are consumed by
registry construction and never read by the event loop. -/
structure HotkeyConfig where
  on_press : String
  checkmap : HotkeyMap
  keymap : HotkeyMap
  activated : Bool
  pid : Int
deriving DecidableEq, Inhabited

/-- The four raw-event types the engine reacts to (`process_event` only ever
returns one of these four; every other X event is skipped inside it). -/
inductive EvType where
  | rawKeyPress
  | rawKeyRelease
  | rawButtonPress
  | rawButtonRelease
deriving DecidableEq, Repr

/-- The part of an `XIRawEvent` the engine reads: its type and `detail`. -/
structure RawEvent where
  evtype : EvType
  detail : Nat
deriving DecidableEq, Repr

/-- Observable side effects of the engine loop. -/
inductive Action where
  | warnStillRunning (cmd : String) (pid : Int)
  | spawned (cmd : String) (pid : Int)
  | sigterm (pid : Int)
deriving DecidableEq, Repr

/-- Whether an action is a `kill(pid, SIGTERM)`. -/
def Action.isSigtermAct : Action → Bool
  | .sigterm _ => true
  | _ => false

/-- Whether an action is a `warn(...)`. -/
def Action.isWarnAct : Action → Bool
  | .warnStillRunning _ _ => true
  | _ => false

/-- Writing `pressed` at `off`: `*((char *)&c->keymap + offset) = pressed`. -/
def updateMap (m : HotkeyMap) (off : MapOffset) (pressed : Bool) : HotkeyMap :=
  if pressed then insert off m else m.erase off

/-- The value `matched = !memcmp(&c->checkmap, &c->keymap, sizeof(c->checkmap))`
computed after the keymap write. -/
def matchedAfter (c : HotkeyConfig) (off : MapOffset) (pressed : Bool) : Bool :=
  decide (updateMap c.keymap off pressed = c.checkmap)

/-- One combination's per-event evaluation (the body of the
`for (size_t i = 0; i < numhotkeys; i++)` loop at the bottom of
`command_hotkeys`): skip unless `checkmap` holds 1 at the event's offset;
otherwise write the keymap bit, recompute `matched`, apply the transition
rule (spawn on `!activated && matched`, signal on `activated && !matched`),
and set `activated = matched`.  Returns the new config, the new fork-call
counter, and the emitted actions. -/
def evalHotkey (forks : Nat → Int) (nf : Nat) (off : MapOffset) (pressed : Bool)
    (c : HotkeyConfig) : HotkeyConfig × Nat × List Action :=
  if off ∈ c.checkmap then
    if !c.activated && matchedAfter c off pressed then
      ({ c with keymap := updateMap c.keymap off pressed,
                activated := matchedAfter c off pressed,
                pid := forks nf },
       nf + 1,
       (if c.pid != -1 then [Action.warnStillRunning c.on_press c.pid] else []) ++
         [Action.spawned c.on_press (forks nf)])
    else if c.activated && !matchedAfter c off pressed then
      ({ c with keymap := updateMap c.keymap off pressed,
                activated := matchedAfter c off pressed },
       nf,
       if c.pid != -1 then [Action.sigterm c.pid] else [])
    else
      ({ c with keymap := updateMap c.keymap off pressed,
                activated := matchedAfter c off pressed },
       nf, [])
  else (c, nf, [])

/-- The whole per-event evaluation over the hotkey array, threading the
fork-call counter in array order and concatenating the emitted actions. -/
def evalAll (forks : Nat → Int) (nf : Nat) (off : MapOffset) (pressed : Bool) :
    List HotkeyConfig → List HotkeyConfig × Nat × List Action
  | [] => ([], nf, [])
  | c :: rest =>
    let r := evalHotkey forks nf off pressed c
    let rs := evalAll forks r.2.1 off pressed rest
    (r.1 :: rs.1, rs.2.1, r.2.2 ++ rs.2.2)

/-- Diagnostic printed by the fatal out-of-range check
(`fatal("unexpected keycode %d\n", ...)` resp.
`fatal("unexpected button number %d\n", ...)`). -/
def fatalEventMsg (ev : RawEvent) : String :=
  match ev.evtype with
  | .rawKeyPress | .rawKeyRelease => "unexpected keycode " ++ toString ev.detail
  | .rawButtonPress | .rawButtonRelease => "unexpected button number " ++ toString ev.detail

/-- Processing of one delivered raw event (the `switch (evtype)` plus the
per-combination loop): validate `detail`, derive `pressed` and the flat map
offset, then evaluate every combination.  A `detail` above 255 is the fatal
path (`fatal(...)` exits the process with status 1), modelled as
`Except.error` carrying the diagnostic. -/
def processEvent (forks : Nat → Int) (nf : Nat) (ev : RawEvent)
    (hks : List HotkeyConfig) :
    Except String (List HotkeyConfig × Nat × List Action) :=
  match ev.evtype with
  | .rawKeyPress | .rawKeyRelease =>
    if h : 255 < ev.detail then .error (fatalEventMsg ev)
    else
      .ok (evalAll forks nf (keyOffset ⟨ev.detail, by omega⟩)
            (decide (ev.evtype = .rawKeyPress)) hks)
  | .rawButtonPress | .rawButtonRelease =>
    if h : 255 < ev.detail then .error (fatalEventMsg ev)
    else
      .ok (evalAll forks nf (buttonOffset ⟨ev.detail, by omega⟩)
            (decide (ev.evtype = .rawButtonPress)) hks)

/-- One step of the reap loop body for one reaped `pid`: scan the hotkey
array, reset the first config whose `pid` matches to −1, and `break`. -/
def reapOne (pid : Int) : List HotkeyConfig → List HotkeyConfig
  | [] => []
  | c :: rest =>
    if c.pid = pid then { c with pid := -1 } :: rest
    else c :: reapOne pid rest

/-- The non-blocking reap pass at the top of each loop iteration:
`while ((pid = waitpid(-1, &status, WNOHANG)) > 0) { ... }`, applied to the
pids the OS reports as exited, in the order it reports them. -/
def reapPass (exited : List Int) (hks : List HotkeyConfig) : List HotkeyConfig :=
  exited.foldl (fun h p => reapOne p h) hks

/-- The engine loop over a finite prefix of the event stream.  Each iteration
is given the pids `waitpid` reports at its top, then blocks for one event and
processes it.  A fatal event aborts the whole run. -/
def runEvents (forks : Nat → Int) (nf : Nat) (hks : List HotkeyConfig) :
    List (List Int × RawEvent) →
    Except String (List HotkeyConfig × Nat × List Action)
  | [] => .ok (hks, nf, [])
  | (exited, ev) :: rest =>
    match processEvent forks nf ev (reapPass exited hks) with
    | .error e => .error e
    | .ok (hks2, nf2, acts) =>
      match runEvents forks nf2 hks2 rest with
      | .error e => .error e
      | .ok (hks3, nf3, acts3) => .ok (hks3, nf3, acts ++ acts3)

/-- One `--hotkey` group as accumulated by `main`'s option loop: the raw
`--key` strings, the raw `--button` strings, and the `--on-press` command
(`none` when the option was absent, like the NULL `on_press` pointer). -/
structure HotkeyDecl where
  keystrs : List String
  buttonstrs : List String
  on_press : Option String
deriving DecidableEq, Repr

/-- External collaborators used by registry construction:
`XStringToKeysym` (`none` = `NoSymbol`), `XKeysymToKeycode` (0 = failure;
a `KeyCode` is an unsigned char) and base-10 `strtol`. -/
structure Resolvers where
  xStringToKeysym : String → Option Nat
  xKeysymToKeycode : Nat → Fin 256
  strtol10 : String → Int

/-- The check `main` runs when flushing each `--hotkey` group:
`(!keys && !buttons) || !on_press` is fatal.  `keys` is NULL exactly when the
group being flushed accumulated no `--key`: the flush resets `keys = NULL`.
`buttons`, however, is never reset to NULL by the flush (only `numbuttons` is
zeroed), so at a flush `buttons` is non-NULL exactly when any `--button` was
accumulated in this group or any earlier one — tracked here by the
`buttonsSeen` flag threaded through the groups in declaration order. -/
def checkDeclsFrom (buttonsSeen : Bool) : List HotkeyDecl → Except String Unit
  | [] => .ok ()
  | d :: rest =>
    let seen2 := buttonsSeen || !d.buttonstrs.isEmpty
    if (d.keystrs.isEmpty && !seen2) || d.on_press.isNone then
      .error "--key and --on-press options are required"
    else checkDeclsFrom seen2 rest

/-- The `main`-level validation of every declared group, in order; at program
start the `buttons` pointer is NULL. -/
def checkDecls (decls : List HotkeyDecl) : Except String Unit :=
  checkDeclsFrom false decls

/-- Resolution of the `--key` strings of one group (first loop of the setup in
`command_hotkeys`): `XStringToKeysym` must not return `NoSymbol` and
`XKeysymToKeycode` must not return 0; each resolved keycode sets
`checkmap.keys[keycode] = 1`. -/
def resolveKeys (R : Resolvers) (acc : HotkeyMap) :
    List String → Except String HotkeyMap
  | [] => .ok acc
  | s :: rest =>
    match R.xStringToKeysym s with
    | none => .error ("--key " ++ s ++ " could not be recognized")
    | some ks =>
      let kc := R.xKeysymToKeycode ks
      if kc = 0 then .error ("--key " ++ s ++ " could not be converted into keycode")
      else resolveKeys R (insert (keyOffset kc) acc) rest

/-- Resolution of the `--button` strings of one group (second loop of the
setup): `strtol` the string, require the value in [1, 255], and set
`checkmap.buttons[num] = 1`. -/
def resolveButtons (R : Resolvers) (acc : HotkeyMap) :
    List String → Except String HotkeyMap
  | [] => .ok acc
  | s :: rest =>
    let num := R.strtol10 s
    if h : num < 1 || 255 < num then
      .error ("--button " ++ s ++ " could not be recognized")
    else
      resolveButtons R
        (insert (buttonOffset ⟨num.toNat, by
          simp only [Bool.or_eq_true, decide_eq_true_eq, not_or] at h
          omega⟩) acc) rest

/-- Setup of one combination's runtime state at the top of `command_hotkeys`:
`memset` both maps to zero, `activated = false`, `pid = -1`, then resolve the
key and button lists into `checkmap`. -/
def resolveHotkey (R : Resolvers) (d : HotkeyDecl) : Except String HotkeyConfig :=
  match resolveKeys R ∅ d.keystrs with
  | .error e => .error e
  | .ok m1 =>
    match resolveButtons R m1 d.buttonstrs with
    | .error e => .error e
    | .ok m2 =>
      .ok { on_press := d.on_press.getD "", checkmap := m2, keymap := ∅,
            activated := false, pid := -1 }

/-- Resolution of every declared combination, in array order. -/
def resolveHotkeys (R : Resolvers) : List HotkeyDecl → Except String (List HotkeyConfig)
  | [] => .ok []
  | d :: rest =>
    match resolveHotkey R d with
    | .error e => .error e
    | .ok c =>
      match resolveHotkeys R rest with
      | .error e => .error e
      | .ok cs => .ok (c :: cs)

/-- Registry construction end to end: `main`'s per-group validation (run for
every group during option parsing), then `command_hotkeys`' setup loop; both
happen before the event loop starts, and any failure is fatal. -/
def buildHotkeys (R : Resolvers) (decls : List HotkeyDecl) :
    Except String (List HotkeyConfig) :=
  match checkDecls decls with
  | .error e => .error e
  | .ok _ => resolveHotkeys R decls

end Thotkeys

namespace Thotkeys

/-! Basic shape lemmas about one combination's per-event evaluation. -/

/-- The resulting config of `evalHotkey`, consolidated over the three
transition branches: when the event's offset is in `checkmap`, the keymap bit
is written, `activated` is set to `matched`, and `pid` is overwritten (with
the fork result) exactly in the spawn branch; otherwise nothing changes. -/
theorem evalHotkey_conf (f : Nat → Int) (nf : Nat) (off : MapOffset) (p : Bool)
    (c : HotkeyConfig) :
    (evalHotkey f nf off p c).1 =
      if off ∈ c.checkmap then
        { c with keymap := updateMap c.keymap off p,
                 activated := matchedAfter c off p,
                 pid := if c.activated = false ∧ matchedAfter c off p = true then f nf
                        else c.pid }
      else c := by
  by_cases hoff : off ∈ c.checkmap
  · cases ha : c.activated <;> cases hm : matchedAfter c off p <;>
      simp [evalHotkey, hoff, ha, hm]
  · simp [evalHotkey, hoff]

/-- The fork-call counter advances exactly when the spawn branch runs. -/
theorem evalHotkey_nf (f : Nat → Int) (nf : Nat) (off : MapOffset) (p : Bool)
    (c : HotkeyConfig) :
    (evalHotkey f nf off p c).2.1 =
      if off ∈ c.checkmap ∧ c.activated = false ∧ matchedAfter c off p = true then nf + 1
      else nf := by
  by_cases hoff : off ∈ c.checkmap
  · cases ha : c.activated <;> cases hm : matchedAfter c off p <;>
      simp [evalHotkey, hoff, ha, hm]
  · simp [evalHotkey, hoff]

/-- The actions emitted by one combination's evaluation, consolidated. -/
theorem evalHotkey_acts (f : Nat → Int) (nf : Nat) (off : MapOffset) (p : Bool)
    (c : HotkeyConfig) :
    (evalHotkey f nf off p c).2.2 =
      if off ∈ c.checkmap then
        if c.activated = false ∧ matchedAfter c off p = true then
          (if c.pid = -1 then [] else [Action.warnStillRunning c.on_press c.pid]) ++
            [Action.spawned c.on_press (f nf)]
        else if c.activated = true ∧ matchedAfter c off p = false then
          (if c.pid = -1 then [] else [Action.sigterm c.pid])
        else []
      else [] := by
  by_cases hoff : off ∈ c.checkmap
  · cases ha : c.activated <;> cases hm : matchedAfter c off p <;>
      by_cases hpid : c.pid = -1 <;>
        simp [evalHotkey, hoff, ha, hm, hpid, bne_iff_ne]
  · simp [evalHotkey, hoff]

/-- A combination whose `checkmap` does not hold the event's offset is skipped
entirely: no field changes, no fork call, no action. -/
theorem evalHotkey_skip (f : Nat → Int) (nf : Nat) (off : MapOffset) (p : Bool)
    (c : HotkeyConfig) (hoff : off ∉ c.checkmap) :
    evalHotkey f nf off p c = (c, nf, []) := by
  simp [evalHotkey, hoff]

/-- Skipped combinations stay untouched across the whole per-event pass:
position `i` of the result equals position `i` of the input whenever the
offset is not in that combination's `checkmap`. -/
theorem evalAll_getD_skip (f : Nat → Int) (off : MapOffset) (p : Bool) :
    ∀ (hks : List HotkeyConfig) (nf : Nat) (i : Nat),
      off ∉ (hks.getD i default).checkmap →
      (evalAll f nf off p hks).1.getD i default = hks.getD i default := by
  intro hks
  induction hks with
  | nil => intro nf i _; simp [evalAll]
  | cons c rest ih =>
    intro nf i hoff
    cases i with
    | zero =>
      simp only [List.getD_cons_zero] at hoff ⊢
      simp [evalAll, evalHotkey_skip f nf off p c hoff]
    | succ j =>
      simp only [List.getD_cons_succ] at hoff ⊢
      simp only [evalAll]
      exact ih _ j hoff

/-- C3: for every combination and every event, the SIGTERM actions emitted by
its evaluation are exactly `[sigterm pid]` when the event concerns the
combination, the combination was activated, the new held set no longer equals
the required set, and `pid` is not −1 — and empty in every other case.  In
particular at most one signal is sent per evaluation, an event arriving while
the combination is already Idle (`activated = false`) sends none, and a
deactivation whose child was already reaped (`pid = −1`) sends none; and since
`activated` is set to the new `matched` value, a deactivation ends the
activation cycle, so a repeated unmatched event cannot signal again. -/
theorem C3_sigterm_only_on_deactivation (f : Nat → Int) (nf : Nat)
    (off : MapOffset) (p : Bool) (c : HotkeyConfig) :
    ((evalHotkey f nf off p c).2.2.filter Action.isSigtermAct =
      if off ∈ c.checkmap ∧ c.activated = true ∧ matchedAfter c off p = false ∧
          c.pid ≠ -1
      then [Action.sigterm c.pid] else [])
    ∧ ((evalHotkey f nf off p c).1.activated =
      if off ∈ c.checkmap then matchedAfter c off p else c.activated) := by
  constructor
  · rw [evalHotkey_acts]
    by_cases hoff : off ∈ c.checkmap
    · cases ha : c.activated <;> cases hm : matchedAfter c off p <;>
        by_cases hpid : c.pid = -1 <;>
          simp [hoff, ha, hm, hpid, Action.isSigtermAct, List.filter]
    · simp [hoff]
  · rw [evalHotkey_conf]
    by_cases hoff : off ∈ c.checkmap <;> simp [hoff]

/-- C4: an event whose `detail` exceeds 255 (for either channel) makes the
engine abort with the `fatal(...)` diagnostic: `processEvent` returns
`Except.error` carrying the message, so no press state is updated, no
combination is evaluated, and no process is spawned. -/
theorem C4_out_of_range_fatal (f : Nat → Int) (nf : Nat) (ev : RawEvent)
    (hks : List HotkeyConfig) (h : 255 < ev.detail) :
    processEvent f nf ev hks = .error (fatalEventMsg ev) := by
  cases hev : ev.evtype <;> simp [processEvent, hev, h]

/-- C7: a combination whose `required` set (`checkmap`) does not hold the
event's (channel, code) offset is skipped entirely by the per-event
evaluation: its entry in the result array is unchanged in every field
(`keymap`, `activated`, `pid`), and its own evaluation step returns the
config unchanged with no fork call and no action.  Hence for combinations A
and B with disjoint required sets, an event belonging only to A's codes
leaves B's whole runtime state unchanged. -/
theorem C7_independence (f : Nat → Int) (nf : Nat) (off : MapOffset) (p : Bool)
    (hks : List HotkeyConfig) (i : Nat)
    (hoff : off ∉ (hks.getD i default).checkmap) :
    (evalAll f nf off p hks).1.getD i default = hks.getD i default
    ∧ evalHotkey f nf off p (hks.getD i default) = (hks.getD i default, nf, []) :=
  ⟨evalAll_getD_skip f off p hks nf i hoff,
   evalHotkey_skip f nf off p (hks.getD i default) hoff⟩

/-- C8: the reap pass with no exited child is a no-op on the hotkey array;
a reported pid owned by no combination changes nothing; and a reported pid
is cleared at its owning combination (the first one referencing it, matching
the `break`), resetting that combination's `child` to −1 and touching nothing
else.  (That the pass runs non-blocking at the top of every iteration, before
the event is pulled and evaluated, is the structure of `runEvents`: each
iteration applies `reapPass` to the supplied `waitpid` results and only then
processes the event.) -/
theorem C8_reap_pass (q : Int) (hks : List HotkeyConfig) (c : HotkeyConfig)
    (rest : List HotkeyConfig) :
    reapPass [] hks = hks
    ∧ ((∀ c2 ∈ hks, c2.pid ≠ q) → reapOne q hks = hks)
    ∧ (c.pid = q → reapOne q (c :: rest) = { c with pid := -1 } :: rest) := by
  refine ⟨rfl, ?_, ?_⟩
  · intro hnone
    induction hks with
    | nil => rfl
    | cons c2 rest2 ih =>
      have h2 : c2.pid ≠ q := hnone c2 (List.mem_cons_self c2 rest2)
      simp only [reapOne, if_neg h2]
      rw [ih (fun c3 hc3 => hnone c3 (List.mem_cons_of_mem c2 hc3))]
  · intro hq
    simp [reapOne, hq]

/-! Preservation of per-combination predicates through the loop. -/

/-- Properties preserved by each combination evaluation and by any pid
overwrite survive the per-event pass over the whole array. -/
theorem evalAll_pres (f : Nat → Int) (off : MapOffset) (p : Bool)
    (P : HotkeyConfig → Prop)
    (hstep : ∀ nf c, P c → P (evalHotkey f nf off p c).1) :
    ∀ (hks : List HotkeyConfig) (nf : Nat), (∀ c ∈ hks, P c) →
      ∀ c2 ∈ (evalAll f nf off p hks).1, P c2 := by
  intro hks
  induction hks with
  | nil => intro nf _ c2 hc2; simp [evalAll] at hc2
  | cons c rest ih =>
    intro nf hall c2 hc2
    simp only [evalAll, List.mem_cons] at hc2
    rcases hc2 with h | h
    · exact h ▸ hstep nf c (hall c (List.mem_cons_self c rest))
    · exact ih _ (fun c3 hc3 => hall c3 (List.mem_cons_of_mem c hc3)) c2 h

/-- Properties insensitive to the pid field survive one reap scan. -/
theorem reapOne_pres (q : Int) (P : HotkeyConfig → Prop)
    (hpid : ∀ c, P c → P { c with pid := -1 }) :
    ∀ (hks : List HotkeyConfig), (∀ c ∈ hks, P c) → ∀ c2 ∈ reapOne q hks, P c2 := by
  intro hks
  induction hks with
  | nil => intro _ c2 hc2; simp [reapOne] at hc2
  | cons c rest ih =>
    intro hall c2 hc2
    simp only [reapOne] at hc2
    split at hc2 <;> simp only [List.mem_cons] at hc2 <;> rcases hc2 with h | h
    · exact h ▸ hpid c (hall c (List.mem_cons_self c rest))
    · exact hall c2 (List.mem_cons_of_mem c h)
    · exact h ▸ hall c (List.mem_cons_self c rest)
    · exact ih (fun c3 hc3 => hall c3 (List.mem_cons_of_mem c hc3)) c2 h

/-- Properties insensitive to the pid field survive the whole reap pass. -/
theorem reapPass_pres (P : HotkeyConfig → Prop)
    (hpid : ∀ c, P c → P { c with pid := -1 }) :
    ∀ (exited : List Int) (hks : List HotkeyConfig), (∀ c ∈ hks, P c) →
      ∀ c2 ∈ reapPass exited hks, P c2 := by
  intro exited
  induction exited with
  | nil => intro hks hall; exact hall
  | cons q rest ih =>
    intro hks hall
    exact ih (reapOne q hks) (reapOne_pres q P hpid hks hall)

/-- Properties preserved by combination evaluation survive the processing of
one (non-fatal) event. -/
theorem processEvent_pres (f : Nat → Int) (nf : Nat) (ev : RawEvent)
    (hks hks2 : List HotkeyConfig) (nf2 : Nat) (acts : List Action)
    (P : HotkeyConfig → Prop)
    (hstep : ∀ nf3 off p c, P c → P (evalHotkey f nf3 off p c).1)
    (hok : processEvent f nf ev hks = .ok (hks2, nf2, acts))
    (hall : ∀ c ∈ hks, P c) : ∀ c2 ∈ hks2, P c2 := by
  cases hev : ev.evtype <;>
    simp only [processEvent, hev] at hok <;>
    split at hok
  all_goals try exact Except.noConfusion hok
  all_goals
    replace hok := Except.ok.inj hok
  all_goals
    have h1 : (evalAll f nf _ _ hks).1 = hks2 := congrArg Prod.fst hok
  all_goals
    intro c2 hc2
  all_goals
    rw [← h1] at hc2
  all_goals
    exact evalAll_pres f _ _ P (fun nf4 c hc => hstep nf4 _ _ c hc) hks nf hall c2 hc2

/-- Properties preserved by combination evaluation and insensitive to pid
overwrites hold of every combination after any successful run of the loop. -/
theorem runEvents_pres (f : Nat → Int) (P : HotkeyConfig → Prop)
    (hstep : ∀ nf off p c, P c → P (evalHotkey f nf off p c).1)
    (hpid : ∀ c, P c → P { c with pid := -1 }) :
    ∀ (steps : List (List Int × RawEvent)) (nf : Nat) (hks hks2 : List HotkeyConfig)
      (nf2 : Nat) (acts : List Action),
      runEvents f nf hks steps = .ok (hks2, nf2, acts) → (∀ c ∈ hks, P c) →
      ∀ c2 ∈ hks2, P c2 := by
  intro steps
  induction steps with
  | nil =>
    intro nf hks hks2 nf2 acts hrun hall
    replace hrun := Except.ok.inj hrun
    have h1 : hks = hks2 := congrArg Prod.fst hrun
    exact h1 ▸ hall
  | cons step rest ih =>
    intro nf hks hks2 nf2 acts hrun hall
    obtain ⟨exited, ev⟩ := step
    simp only [runEvents] at hrun
    cases hp : processEvent f nf ev (reapPass exited hks) with
    | error e => rw [hp] at hrun; exact Except.noConfusion hrun
    | ok out =>
      obtain ⟨hksA, nfA, actsA⟩ := out
      rw [hp] at hrun
      dsimp only [] at hrun
      have hallA : ∀ c ∈ hksA, P c :=
        processEvent_pres f nf ev (reapPass exited hks) hksA nfA actsA P
          (fun nf3 off p c => hstep nf3 off p c) hp
          (reapPass_pres P hpid exited hks hall)
      cases hr : runEvents f nfA hksA rest with
      | error e => rw [hr] at hrun; exact Except.noConfusion hrun
      | ok out2 =>
        obtain ⟨hksB, nfB, actsB⟩ := out2
        rw [hr] at hrun
        replace hrun := Except.ok.inj hrun
        have h1 : hksB = hks2 := congrArg Prod.fst hrun
        exact h1 ▸ ih nfA hksA hksB nfB actsB hr hallA

/-- One evaluation step re-establishes the exact-match invariant: after it,
`activated` is true iff the held set equals the required set. -/
theorem evalHotkey_pres_actInv (f : Nat → Int) (nf : Nat) (off : MapOffset)
    (p : Bool) (c : HotkeyConfig)
    (h : c.activated = true ↔ c.keymap = c.checkmap) :
    (evalHotkey f nf off p c).1.activated = true ↔
      (evalHotkey f nf off p c).1.keymap = (evalHotkey f nf off p c).1.checkmap := by
  rw [evalHotkey_conf]
  by_cases hoff : off ∈ c.checkmap
  · simp [hoff, matchedAfter]
  · simpa [hoff] using h

/-- One evaluation step keeps the held set inside the required set. -/
theorem evalHotkey_pres_sub (f : Nat → Int) (nf : Nat) (off : MapOffset)
    (p : Bool) (c : HotkeyConfig) (h : c.keymap ⊆ c.checkmap) :
    (evalHotkey f nf off p c).1.keymap ⊆ (evalHotkey f nf off p c).1.checkmap := by
  rw [evalHotkey_conf]
  by_cases hoff : off ∈ c.checkmap
  · cases p with
    | true => simpa [hoff, updateMap] using Finset.insert_subset hoff h
    | false =>
      simp only [hoff, if_true, updateMap, Bool.false_eq_true, if_false]
      exact (Finset.erase_subset off c.keymap).trans h
  · simpa [hoff] using h

/-- Releasing a required member always leaves the combination deactivated. -/
theorem evalHotkey_release_deactivates (f : Nat → Int) (nf : Nat)
    (off : MapOffset) (c : HotkeyConfig) (hoff : off ∈ c.checkmap) :
    (evalHotkey f nf off false c).1.activated = false := by
  rw [evalHotkey_conf]
  simp only [hoff, if_true]
  have hne : updateMap c.keymap off false ≠ c.checkmap := by
    intro heq
    have hni := Finset.not_mem_erase off c.keymap
    rw [show updateMap c.keymap off false = c.keymap.erase off from rfl] at heq
    rw [heq] at hni
    exact hni hoff
  simp [matchedAfter, hne]

/-- C1: starting from the initial runtime state (`activated = false`,
`keymap` empty, non-empty `checkmap` as produced by registry construction),
after any successful run of the engine every combination satisfies
`activated = true` iff its held set equals its required set exactly — so
pressing the required codes in any order activates exactly on the event that
completes the set.  Moreover a press or release whose offset lies outside a
combination's required set never changes its `activated` flag, and a release
of a required member always leaves it deactivated. -/
theorem C1_exact_match (forks : Nat → Int) (nf : Nat)
    (hks : List HotkeyConfig) (steps : List (List Int × RawEvent))
    (hks2 : List HotkeyConfig) (nf2 : Nat) (acts : List Action)
    (hinit : ∀ c ∈ hks, c.activated = false ∧ c.keymap = ∅ ∧ c.checkmap ≠ ∅)
    (hrun : runEvents forks nf hks steps = .ok (hks2, nf2, acts)) :
    (∀ c ∈ hks2, (c.activated = true ↔ c.keymap = c.checkmap))
    ∧ (∀ (f : Nat → Int) (n : Nat) (off : MapOffset) (p : Bool) (c : HotkeyConfig),
        off ∉ c.checkmap → (evalHotkey f n off p c).1.activated = c.activated)
    ∧ (∀ (f : Nat → Int) (n : Nat) (off : MapOffset) (c : HotkeyConfig),
        off ∈ c.checkmap → (evalHotkey f n off false c).1.activated = false) := by
  refine ⟨?_, ?_, ?_⟩
  · refine runEvents_pres forks (fun c => c.activated = true ↔ c.keymap = c.checkmap)
      (fun nf3 off p c h => evalHotkey_pres_actInv forks nf3 off p c h)
      (fun c h => h) steps nf hks hks2 nf2 acts hrun ?_
    intro c hc
    obtain ⟨ha, hk, hne⟩ := hinit c hc
    rw [ha, hk]
    simp only [Bool.false_eq_true, false_iff]
    exact fun heq => hne heq.symm
  · intro f n off p c hoff
    rw [evalHotkey_skip f n off p c hoff]
  · intro f n off c hoff
    exact evalHotkey_release_deactivates f n off c hoff

/-- C10: starting from the zeroed initial state, the held set (`keymap`) of
every combination only ever holds offsets that are in its required set
(`checkmap`) after any successful run — and under that subset invariant,
whole-bitmap equality is a correct exact-match test: the maps are equal iff
every required code is held. -/
theorem C10_held_subset (forks : Nat → Int) (nf : Nat)
    (hks : List HotkeyConfig) (steps : List (List Int × RawEvent))
    (hks2 : List HotkeyConfig) (nf2 : Nat) (acts : List Action)
    (hinit : ∀ c ∈ hks, c.keymap = ∅)
    (hrun : runEvents forks nf hks steps = .ok (hks2, nf2, acts)) :
    ∀ c ∈ hks2, c.keymap ⊆ c.checkmap
      ∧ (c.keymap = c.checkmap ↔ c.checkmap ⊆ c.keymap) := by
  have hsub : ∀ c ∈ hks2, c.keymap ⊆ c.checkmap := by
    refine runEvents_pres forks (fun c => c.keymap ⊆ c.checkmap)
      (fun nf3 off p c h => evalHotkey_pres_sub forks nf3 off p c h)
      (fun c h => h) steps nf hks hks2 nf2 acts hrun ?_
    intro c hc
    rw [hinit c hc]
    exact Finset.empty_subset _
  intro c hc
  refine ⟨hsub c hc, ⟨?_, ?_⟩⟩
  · intro heq
    rw [heq]
  · intro hsup
    exact Finset.Subset.antisymm (hsub c hc) hsup

/-- C2: on a transition from not-activated to matched, the evaluation step
spawns a child running the combination's command and records the fork result
as its `pid`; when the previous `pid` is not −1 it additionally emits the
non-fatal still-running warning first, and in every case it neither waits for
the old child (no reap happens inside the step) nor skips the new spawn — the
old handle is simply overwritten, so two live children of the same
combination are possible. -/
theorem C2_activation_spawns (f : Nat → Int) (nf : Nat) (off : MapOffset)
    (p : Bool) (c : HotkeyConfig) (ha : c.activated = false)
    (hoff : off ∈ c.checkmap) (hm : matchedAfter c off p = true) :
    evalHotkey f nf off p c =
      ({ c with keymap := updateMap c.keymap off p, activated := true,
                pid := f nf },
       nf + 1,
       (if c.pid = -1 then [] else [Action.warnStillRunning c.on_press c.pid]) ++
         [Action.spawned c.on_press (f nf)]) := by
  by_cases hpid : c.pid = -1 <;>
    simp [evalHotkey, hoff, ha, hm, hpid, bne_iff_ne]

/-- C5 as stated is false: the spawn step can also reset `child` to none.
In this concrete three-event run (no pid is ever reported by `waitpid`, so no
reap happens anywhere), the combination activates (child pid 5), deactivates
(SIGTERM to 5), and re-activates while `fork` fails: the spawn step
overwrites the still-recorded handle 5 with −1, so `child` became none at a
spawn step, not at a reaping step. -/
theorem C5_counterexample :
    runEvents (fun n => if n = 0 then 5 else -1) 0
      [{ on_press := "cmd", checkmap := {keyOffset 10}, keymap := ∅,
         activated := false, pid := -1 }]
      [([], ⟨.rawKeyPress, 10⟩), ([], ⟨.rawKeyRelease, 10⟩),
       ([], ⟨.rawKeyPress, 10⟩)] =
    .ok ([{ on_press := "cmd", checkmap := {keyOffset 10},
            keymap := {keyOffset 10}, activated := true, pid := -1 }], 2,
      [Action.spawned "cmd" 5, Action.sigterm 5,
       Action.warnStillRunning "cmd" 5, Action.spawned "cmd" (-1)]) := rfl

/-- C5 amended: within the per-event evaluation, `child` is overwritten only
by the spawn step, where it receives the fork result (−1 exactly when the
fork failed); the deactivation step and the no-transition case never change
`pid`, so apart from failed spawns, `child` becomes none only at the reap
step. -/
theorem C5_pid_changes_only_on_spawn (f : Nat → Int) (nf : Nat)
    (off : MapOffset) (p : Bool) (c : HotkeyConfig) :
    (c.activated = true → (evalHotkey f nf off p c).1.pid = c.pid)
    ∧ ((evalHotkey f nf off p c).1.pid ≠ c.pid →
        c.activated = false ∧ off ∈ c.checkmap ∧ matchedAfter c off p = true ∧
          (evalHotkey f nf off p c).1.pid = f nf) := by
  rw [evalHotkey_conf]
  by_cases hoff : off ∈ c.checkmap
  · cases ha : c.activated <;> cases hm : matchedAfter c off p <;>
      simp [hoff, ha, hm]
  · simp [hoff]

/-- C6 as stated is false: a failed spawn is not reported.  Concretely: a
combination with no previous child activates while `fork` fails; the step
emits only the `spawned` side effect with result −1 and no warning of any
kind, records `pid = −1`, sets `activated = true`, and the engine continues
(the step returns normally). -/
theorem C6_counterexample :
    evalHotkey (fun _ => -1) 0 (keyOffset 10) true
      { on_press := "cmd", checkmap := {keyOffset 10}, keymap := ∅,
        activated := false, pid := -1 } =
      ({ on_press := "cmd", checkmap := {keyOffset 10}, keymap := {keyOffset 10},
         activated := true, pid := -1 }, 1, [Action.spawned "cmd" (-1)])
    ∧ List.filter Action.isWarnAct [Action.spawned "cmd" (-1)] = [] :=
  ⟨rfl, rfl⟩

/-- C6 amended: a spawn failure (`fork` returning −1) is not reported — the
warnings emitted by the step are exactly the still-running warning governed
by the previous `pid`, identical to a successful spawn — and it is not fatal:
the step completes, the combination remains activated, and it has no child
(`pid = −1`) until the next evaluation. -/
theorem C6_spawn_failure_silent (f : Nat → Int) (nf : Nat) (off : MapOffset)
    (p : Bool) (c : HotkeyConfig) (ha : c.activated = false)
    (hoff : off ∈ c.checkmap) (hm : matchedAfter c off p = true)
    (hfail : f nf = -1) :
    (evalHotkey f nf off p c).1.activated = true
    ∧ (evalHotkey f nf off p c).1.pid = -1
    ∧ (evalHotkey f nf off p c).2.2.filter Action.isWarnAct =
        (if c.pid = -1 then [] else [Action.warnStillRunning c.on_press c.pid]) := by
  rw [C2_activation_spawns f nf off p c ha hoff hm]
  by_cases hpid : c.pid = -1 <;>
    simp [hpid, hfail, Action.isWarnAct, List.filter]

/-! Registry construction: characterization of the fatal cases. -/

/-- Whether an `Except` is the fatal (`error`) outcome. -/
def isErr {α : Type} : Except String α → Bool
  | .error _ => true
  | .ok _ => false

/-- A `--key` string fails to resolve to a device code: `XStringToKeysym`
returns `NoSymbol`, or `XKeysymToKeycode` returns keycode 0. -/
def keyFails (R : Resolvers) (s : String) : Bool :=
  match R.xStringToKeysym s with
  | none => true
  | some ks => decide (R.xKeysymToKeycode ks = 0)

/-- A `--button` string is rejected: its `strtol` value lies outside [1, 255]. -/
def buttonBad (R : Resolvers) (s : String) : Bool :=
  decide (R.strtol10 s < 1) || decide (255 < R.strtol10 s)

/-- Key resolution fails exactly when some listed key string fails. -/
theorem resolveKeys_isErr (R : Resolvers) :
    ∀ (l : List String) (acc : HotkeyMap),
      isErr (resolveKeys R acc l) = true ↔ ∃ s ∈ l, keyFails R s = true := by
  intro l
  induction l with
  | nil => intro acc; simp [resolveKeys, isErr]
  | cons s rest ih =>
    intro acc
    cases hks : R.xStringToKeysym s with
    | none =>
      simp only [resolveKeys, hks, isErr, true_iff]
      exact ⟨s, List.mem_cons_self s rest, by simp [keyFails, hks]⟩
    | some k =>
      by_cases hkc : R.xKeysymToKeycode k = 0
      · simp only [resolveKeys, hks, if_pos hkc, isErr, true_iff]
        exact ⟨s, List.mem_cons_self s rest, by simp [keyFails, hks, hkc]⟩
      · simp only [resolveKeys, hks, if_neg hkc]
        rw [ih]
        constructor
        · rintro ⟨t, ht, hbad⟩
          exact ⟨t, List.mem_cons_of_mem s ht, hbad⟩
        · rintro ⟨t, ht, hbad⟩
          rcases List.mem_cons.mp ht with heq | ht2
          · exfalso
            rw [heq] at hbad
            simp [keyFails, hks, hkc] at hbad
          · exact ⟨t, ht2, hbad⟩

/-- Button resolution fails exactly when some listed button string is bad. -/
theorem resolveButtons_isErr (R : Resolvers) :
    ∀ (l : List String) (acc : HotkeyMap),
      isErr (resolveButtons R acc l) = true ↔ ∃ s ∈ l, buttonBad R s = true := by
  intro l
  induction l with
  | nil => intro acc; simp [resolveButtons, isErr]
  | cons s rest ih =>
    intro acc
    simp only [resolveButtons]
    split_ifs with hb
    · simp only [isErr, true_iff]
      exact ⟨s, List.mem_cons_self s rest, hb⟩
    · rw [ih]
      constructor
      · rintro ⟨t, ht, hbad⟩
        exact ⟨t, List.mem_cons_of_mem s ht, hbad⟩
      · rintro ⟨t, ht, hbad⟩
        rcases List.mem_cons.mp ht with heq | ht2
        · exact absurd (heq ▸ hbad) hb
        · exact ⟨t, ht2, hbad⟩

/-- One combination's resolution fails exactly when a key or button fails. -/
theorem resolveHotkey_isErr (R : Resolvers) (d : HotkeyDecl) :
    isErr (resolveHotkey R d) = true ↔
      (∃ s ∈ d.keystrs, keyFails R s = true)
      ∨ (∃ s ∈ d.buttonstrs, buttonBad R s = true) := by
  cases hk : resolveKeys R ∅ d.keystrs with
  | error e =>
    have h1 : ∃ s ∈ d.keystrs, keyFails R s = true :=
      (resolveKeys_isErr R d.keystrs ∅).mp (by rw [hk]; rfl)
    simp only [resolveHotkey, hk, isErr, true_iff]
    exact Or.inl h1
  | ok m1 =>
    have h1 : ¬∃ s ∈ d.keystrs, keyFails R s = true := by
      rw [← resolveKeys_isErr R d.keystrs ∅, hk]
      simp [isErr]
    cases hb : resolveButtons R m1 d.buttonstrs with
    | error e =>
      have h2 : ∃ s ∈ d.buttonstrs, buttonBad R s = true :=
        (resolveButtons_isErr R d.buttonstrs m1).mp (by rw [hb]; rfl)
      simp only [resolveHotkey, hk, hb, isErr, true_iff]
      exact Or.inr h2
    | ok m2 =>
      have h2 : ¬∃ s ∈ d.buttonstrs, buttonBad R s = true := by
        rw [← resolveButtons_isErr R d.buttonstrs m1, hb]
        simp [isErr]
      simp only [resolveHotkey, hk, hb, isErr]
      simp [h1, h2]

/-- Resolving the whole list fails exactly when some declaration fails. -/
theorem resolveHotkeys_isErr (R : Resolvers) :
    ∀ (l : List HotkeyDecl),
      isErr (resolveHotkeys R l) = true ↔
        ∃ d ∈ l, (∃ s ∈ d.keystrs, keyFails R s = true)
          ∨ (∃ s ∈ d.buttonstrs, buttonBad R s = true) := by
  intro l
  induction l with
  | nil => simp [resolveHotkeys, isErr]
  | cons d rest ih =>
    cases hd : resolveHotkey R d with
    | error e =>
      have h1 := (resolveHotkey_isErr R d).mp (by rw [hd]; rfl)
      simp only [resolveHotkeys, hd, isErr, true_iff]
      exact ⟨d, List.mem_cons_self d rest, h1⟩
    | ok c =>
      have h1 : ¬((∃ s ∈ d.keystrs, keyFails R s = true)
          ∨ (∃ s ∈ d.buttonstrs, buttonBad R s = true)) := by
        rw [← resolveHotkey_isErr R d, hd]
        simp [isErr]
      cases hr : resolveHotkeys R rest with
      | error e =>
        have h2 := (ih).mp (by rw [hr]; rfl)
        obtain ⟨d2, hd2, hbad2⟩ := h2
        simp only [resolveHotkeys, hd, hr, isErr, true_iff]
        exact ⟨d2, List.mem_cons_of_mem d hd2, hbad2⟩
      | ok cs =>
        have h2 : ¬∃ d2 ∈ rest, (∃ s ∈ d2.keystrs, keyFails R s = true)
            ∨ (∃ s ∈ d2.buttonstrs, buttonBad R s = true) := by
          rw [← ih, hr]
          simp [isErr]
        simp only [resolveHotkeys, hd, hr, isErr]
        constructor
        · intro hfalse
          exact absurd hfalse (by simp)
        · rintro ⟨d2, hd2, hbad2⟩
          rcases List.mem_cons.mp hd2 with heq | ht2
          · exact absurd (heq ▸ hbad2) h1
          · exact absurd ⟨d2, ht2, hbad2⟩ h2

/-- Oracle instance for the C9 failing input: base-10 `strtol` maps the single
button argument "1" to 1 (the key oracles are irrelevant — no keys are
declared). -/
def staleR : Resolvers :=
  { xStringToKeysym := fun _ => none,
    xKeysymToKeycode := fun _ => 0,
    strtol10 := fun s => if s = "1" then 1 else 0 }

/-- C9 fails on the code: for the command line
`--hotkey --button 1 --on-press c1 --hotkey --on-press c2`, the second
combination is declared with neither keys nor buttons, yet registry
construction succeeds instead of aborting.  `main`'s flush resets `keys`,
`numkeys`, `numbuttons` and `on_press` but never resets the `buttons`
pointer, so at the second flush `(!keys && !buttons)` sees the stale
non-NULL `buttons` of the first group and does not fire; the event loop then
starts with the second combination's requirement set empty (its `checkmap`
all zero), an inert combination that can never match.  The claimed abort is
the evident intent — the same flush zeroes `numbuttons`, and the fatal
message documents the per-group requirement — and the missing
`buttons = NULL` is the slip; this theorem evaluates the construction at
that failing input. -/
theorem C9_stale_buttons_accepted :
    buildHotkeys staleR
      [{ keystrs := [], buttonstrs := ["1"], on_press := some "c1" },
       { keystrs := [], buttonstrs := [], on_press := some "c2" }] =
    .ok [{ on_press := "c1", checkmap := {buttonOffset 1}, keymap := ∅,
           activated := false, pid := -1 },
         { on_press := "c2", checkmap := ∅, keymap := ∅,
           activated := false, pid := -1 }] := rfl

/-! Concrete witnesses instantiating the theorems above. -/

/-- Single-key combination in its initial runtime state. -/
def w1Hk : HotkeyConfig :=
  { on_press := "cmd", checkmap := {keyOffset 10}, keymap := ∅,
    activated := false, pid := -1 }

/-- Its state after one press of key 10 (fork returning 7). -/
def w1Out : HotkeyConfig :=
  { on_press := "cmd", checkmap := {keyOffset 10}, keymap := {keyOffset 10},
    activated := true, pid := 7 }

/-- Witness for C1 on a concrete one-event run. -/
theorem C1_exact_match_witness :
    w1Out.activated = true ↔ w1Out.keymap = w1Out.checkmap :=
  (C1_exact_match (fun _ => 7) 0 [w1Hk] [([], ⟨.rawKeyPress, 10⟩)] [w1Out] 1
      [Action.spawned "cmd" 7] (by decide) rfl).1 w1Out (List.mem_cons_self _ _)

/-- Witness for C10 on the same concrete run. -/
theorem C10_held_subset_witness :
    w1Out.keymap ⊆ w1Out.checkmap
    ∧ (w1Out.keymap = w1Out.checkmap ↔ w1Out.checkmap ⊆ w1Out.keymap) :=
  C10_held_subset (fun _ => 7) 0 [w1Hk] [([], ⟨.rawKeyPress, 10⟩)] [w1Out] 1
    [Action.spawned "cmd" 7] (by decide) rfl w1Out (List.mem_cons_self _ _)

/-- Single-key combination with a previous child (pid 5) still recorded. -/
def w2Hk : HotkeyConfig :=
  { on_press := "c", checkmap := {keyOffset 10}, keymap := ∅,
    activated := false, pid := 5 }

/-- Witness for C2: re-activation warns about pid 5 and still spawns pid 7. -/
theorem C2_activation_spawns_witness :
    evalHotkey (fun _ => 7) 0 (keyOffset 10) true w2Hk =
      ({ on_press := "c", checkmap := {keyOffset 10}, keymap := {keyOffset 10},
         activated := true, pid := 7 }, 1,
       [Action.warnStillRunning "c" 5, Action.spawned "c" 7]) :=
  C2_activation_spawns (fun _ => 7) 0 (keyOffset 10) true w2Hk rfl (by decide)
    (by decide)

/-- Witness for C4: Scenario 3, keycode 300. -/
theorem C4_out_of_range_fatal_witness :
    processEvent (fun _ => 1) 0 ⟨.rawKeyPress, 300⟩ [] =
      .error "unexpected keycode 300" :=
  C4_out_of_range_fatal (fun _ => 1) 0 ⟨.rawKeyPress, 300⟩ [] (by decide)

/-- Activated single-key combination with a live recorded child (pid 5). -/
def w5Hk : HotkeyConfig :=
  { on_press := "c", checkmap := {keyOffset 10}, keymap := {keyOffset 10},
    activated := true, pid := 5 }

/-- Witness for the amended C5: the deactivating release leaves pid 5 alone. -/
theorem C5_pid_changes_only_on_spawn_witness :
    (evalHotkey (fun _ => 7) 0 (keyOffset 10) false w5Hk).1.pid = 5 :=
  (C5_pid_changes_only_on_spawn (fun _ => 7) 0 (keyOffset 10) false w5Hk).1 rfl

/-- Single-key combination with no previous child. -/
def w6Hk : HotkeyConfig :=
  { on_press := "c", checkmap := {keyOffset 10}, keymap := ∅,
    activated := false, pid := -1 }

/-- Witness for the amended C6: activation with a failing fork stays silent,
keeps the step non-fatal, and leaves the combination activated with no child. -/
theorem C6_spawn_failure_silent_witness :
    (evalHotkey (fun _ => -1) 0 (keyOffset 10) true w6Hk).1.activated = true
    ∧ (evalHotkey (fun _ => -1) 0 (keyOffset 10) true w6Hk).1.pid = -1
    ∧ (evalHotkey (fun _ => -1) 0 (keyOffset 10) true w6Hk).2.2.filter
        Action.isWarnAct = [] :=
  C6_spawn_failure_silent (fun _ => -1) 0 (keyOffset 10) true w6Hk rfl (by decide)
    (by decide) rfl

/-- Key-only combination (requires key 1). -/
def w7A : HotkeyConfig :=
  { on_press := "a", checkmap := {keyOffset 1}, keymap := ∅,
    activated := false, pid := -1 }

/-- Button-only combination (requires button 3), disjoint from `w7A`. -/
def w7B : HotkeyConfig :=
  { on_press := "b", checkmap := {buttonOffset 3}, keymap := ∅,
    activated := false, pid := -1 }

/-- Witness for C7: a key-1 press leaves the disjoint combination untouched. -/
theorem C7_independence_witness :
    (evalAll (fun _ => 7) 0 (keyOffset 1) true [w7A, w7B]).1.getD 1 default = w7B
    ∧ evalHotkey (fun _ => 7) 0 (keyOffset 1) true ([w7A, w7B].getD 1 default) =
        ([w7A, w7B].getD 1 default, 0, []) :=
  C7_independence (fun _ => 7) 0 (keyOffset 1) true [w7A, w7B] 1 (by decide)

/-- Combination with recorded child pid 5. -/
def w8Hk : HotkeyConfig :=
  { on_press := "c", checkmap := {keyOffset 1}, keymap := ∅,
    activated := false, pid := 5 }

/-- Witness for C8: reaping an unowned pid changes nothing; reaping pid 5
resets its owner's child to −1. -/
theorem C8_reap_pass_witness :
    reapOne 7 [w8Hk] = [w8Hk]
    ∧ reapOne 5 (w8Hk :: []) = { w8Hk with pid := -1 } :: [] :=
  ⟨(C8_reap_pass 7 [w8Hk] w8Hk []).2.1 (by decide),
   (C8_reap_pass 5 [w8Hk] w8Hk []).2.2 rfl⟩

end Thotkeys
